import Mathlib

/-!
Verification of the PySC2 A3C agent (`Agents/PySC2_A3C_Agent.py`).

The relevant pieces of the Python source are shallowly embedded over exact
rational arithmetic (`ℚ`): the discounting filter, the advantage block of
`Worker.train`, the action mask / renormalization / sampling pipeline of
`Worker.work`, the sentinel overwrite for unused action arguments, the
mid-episode training trigger, and the observation encoder of `AgentModel`.
-/

namespace PySC2A3C

/-! ### discount (PySC2_A3C_Agent.py lines 56-57)

`discount(x, gamma) = scipy.signal.lfilter([1], [1, -gamma], x[::-1], axis=0)[::-1]`.

`lfilter` with numerator `[1]` and denominator `[1, -gamma]` realizes the
forward recurrence `y[n] = x[n] + gamma * y[n-1]` with zero initial state
(`y[-1] = 0`); the source applies it to the reversed input and reverses the
output. -/

/-- Forward pass of `scipy.signal.lfilter([1], [1, -gamma], x)`: `prev` is the
filter state `y[n-1]`, initially 0. -/
def lfilterGo (gamma : ℚ) (prev : ℚ) : List ℚ → List ℚ
  | [] => []
  | xi :: rest =>
    let y := xi + gamma * prev
    y :: lfilterGo gamma y rest

/-- `discount` from the source: run the autoregressive filter over the reversed
sequence and reverse the result. -/
def discount (gamma : ℚ) (x : List ℚ) : List ℚ :=
  (lfilterGo gamma 0 x.reverse).reverse

theorem lfilterGo_append_single (gamma p x : ℚ) (l : List ℚ) :
    lfilterGo gamma p (l ++ [x])
      = lfilterGo gamma p l ++ [x + gamma * (lfilterGo gamma p l).getLastD p] := by
  induction l generalizing p with
  | nil => simp [lfilterGo]
  | cons a l ih =>
    simp only [lfilterGo, List.cons_append, List.append_eq]
    rw [ih, List.getLastD_cons]

theorem discount_nil (gamma : ℚ) : discount gamma [] = [] := rfl

/-- Unfolding of `discount` at the front of the sequence: the backward
recurrence `y[i] = x[i] + gamma * y[i+1]`. -/
theorem discount_cons (gamma x : ℚ) (rest : List ℚ) :
    discount gamma (x :: rest)
      = (x + gamma * (discount gamma rest).headD 0) :: discount gamma rest := by
  have hrev : (x :: rest).reverse = rest.reverse ++ [x] := by simp
  have hhead : (discount gamma rest).headD 0
      = (lfilterGo gamma 0 rest.reverse).getLastD 0 := by
    simp [discount, List.headD_eq_head?, List.head?_reverse, List.getLastD_eq_getLast?]
  rw [discount, hrev, lfilterGo_append_single]
  simp [discount, hhead]

theorem length_discount (gamma : ℚ) (x : List ℚ) :
    (discount gamma x).length = x.length := by
  induction x with
  | nil => rfl
  | cons a rest ih => rw [discount_cons]; simp [ih]

theorem headD_eq_getD_zero (l : List ℚ) : l.headD 0 = l.getD 0 0 := by
  cases l <;> rfl

/-- Index form of the backward recurrence, reading entries past the end as 0. -/
theorem discount_getD (gamma : ℚ) (x : List ℚ) :
    ∀ i, i < x.length →
      (discount gamma x).getD i 0
        = x.getD i 0 + gamma * (discount gamma x).getD (i + 1) 0 := by
  induction x with
  | nil => intro i hi; simp at hi
  | cons a rest ih =>
    intro i hi
    rw [discount_cons]
    cases i with
    | zero =>
      simp only [List.getD_cons_zero, List.getD_cons_succ, headD_eq_getD_zero]
    | succ j =>
      simp only [List.getD_cons_succ]
      exact ih j (by simpa using hi)

/-! ### Advantage block of Worker.train (PySC2_A3C_Agent.py lines 398-404)

`value_plus = values ++ [bootstrap_value]`,
`advantages = rewards + gamma * value_plus[1:] - value_plus[:-1]`,
`advantages = discount(advantages, gamma)`. -/

/-- The advantage computation of `Worker.train`: elementwise TD residuals over
the rollout followed by `discount`. -/
def computeAdvantages (gamma : ℚ) (rewards values : List ℚ) (bootstrap : ℚ) : List ℚ :=
  let valuePlus := values ++ [bootstrap]
  let td := List.zipWith (fun r d => r + d) rewards
    (List.zipWith (fun vnext vcur => gamma * vnext - vcur) (valuePlus.drop 1) valuePlus.dropLast)
  discount gamma td

/-- Partial geometric sum: `geomSum g m = 1 + g + ... + g ^ (m - 1)`, with
`geomSum g 0 = 0`. -/
def geomSum (g : ℚ) : ℕ → ℚ
  | 0 => 0
  | m + 1 => 1 + g * geomSum g m

theorem zipWith_replicate_same {α β γ : Type} (f : α → β → γ) (a : α) (b : β) :
    ∀ n, List.zipWith f (List.replicate n a) (List.replicate n b)
      = List.replicate n (f a b) := by
  intro n
  induction n with
  | zero => rfl
  | succ m ih => simp [List.replicate_succ, ih]

theorem discount_replicate_getD (g c : ℚ) :
    ∀ n i, (discount g (List.replicate n c)).getD i 0 = c * geomSum g (n - i) := by
  intro n
  induction n with
  | zero => intro i; simp [discount_nil, geomSum]
  | succ m ih =>
    intro i
    rw [List.replicate_succ, discount_cons]
    cases i with
    | zero =>
      have hh : (discount g (List.replicate m c)).headD 0 = c * geomSum g m := by
        rw [headD_eq_getD_zero, ih 0, Nat.sub_zero]
      rw [List.getD_cons_zero, hh]
      simp [geomSum]
      ring
    | succ j =>
      rw [List.getD_cons_succ, ih j]
      congr 2
      omega

/-- C1: `discount(x, gamma)` is the reverse-time discounted cumulative sum:
output[i] = x[i] + gamma * output[i+1] with the value beyond the sequence end
taken as 0; for gamma = 1/2 and input [1,1,1] it returns [1.75, 1.5, 1.0]
(= [7/4, 3/2, 1] exactly). -/
theorem C1_discount_recurrence (gamma : ℚ) (x : List ℚ) :
    (discount gamma x).length = x.length ∧
    (∀ i, i < x.length →
      (discount gamma x).getD i 0
        = x.getD i 0 + gamma * (discount gamma x).getD (i + 1) 0) ∧
    discount (1/2) [1, 1, 1] = [7/4, 3/2, 1] := by
  refine ⟨length_discount gamma x, discount_getD gamma x, ?_⟩
  norm_num [discount, lfilterGo]

/-- Witness for C1: the recurrence instantiated at gamma = 1/2, x = [1,1,1],
index 0, with the index bound discharged concretely. -/
theorem C1_discount_recurrence_witness :
    0 < ([1, 1, 1] : List ℚ).length ∧
    (discount (1/2) [1, 1, 1]).getD 0 0
      = ([1, 1, 1] : List ℚ).getD 0 0 + (1/2) * (discount (1/2) [1, 1, 1]).getD 1 0 :=
  ⟨by norm_num, (C1_discount_recurrence (1/2) [1, 1, 1]).2.1 0 (by norm_num)⟩

/-- C2 counterexample: with rewards all 1, values all 0, bootstrap 0, g = 1/2
and rollout length 2, the first returned advantage is 3/2, not the constant
TD residual r + (g-1)v = 1 the claim demands for every element. -/
theorem C2_counterexample :
    (computeAdvantages (1/2) (List.replicate 2 1) (List.replicate 2 0) 0).getD 0 0
      ≠ 1 + ((1/2 : ℚ) - 1) * 0 := by
  norm_num [computeAdvantages, discount, lfilterGo, List.replicate]

/-- C2 amended: with every reward r, every value v, bootstrap v and discount g,
every TD residual is the constant r + (g-1)v, and the advantage at index i of an
n-step rollout is (r + (g-1)v) * (1 + g + ... + g^(n-i-1)) — the discounted
cumulative sum of the constant residual. In particular only the LAST advantage
equals r + (g-1)v. -/
theorem C2_advantages_constant_rollout (g r v : ℚ) (n i : ℕ) :
    (computeAdvantages g (List.replicate n r) (List.replicate n v) v).getD i 0
      = (r + (g - 1) * v) * geomSum g (n - i) := by
  have h1 : (List.replicate n v ++ [v] : List ℚ).drop 1 = List.replicate n v := by
    rw [← List.replicate_succ', List.replicate_succ]
    simp
  have h2 : (List.replicate n v ++ [v] : List ℚ).dropLast = List.replicate n v := by
    simp
  have h3 : computeAdvantages g (List.replicate n r) (List.replicate n v) v
      = discount g (List.replicate n (r + (g * v - v))) := by
    rw [computeAdvantages]
    simp only [h1, h2, zipWith_replicate_same]
  rw [h3, discount_replicate_getD]
  ring_nf

/-! ### Availability mask and renormalization (Worker.work lines 455-461)

The worker zeroes, in place, every entry of the base-action distribution whose
catalogue id (`get_action(action_id).id`, abstracted here as `getId`) is not in
the observation's available-action list, then divides the buffer by its sum
unless that sum is already exactly 1 or exactly 0. -/

/-- The masking loop over `enumerate(base_action_dist[0])`; `k` is the running
enumerate index. -/
def maskDist (getId : ℕ → ℕ) (available : List ℕ) : ℕ → List ℚ → List ℚ
  | _, [] => []
  | k, p :: rest =>
    (if getId k ∈ available then p else 0) :: maskDist getId available (k + 1) rest

/-- The renormalization step: `if sum != 1 and sum != 0: dist /= sum`. -/
def renormalize (dist : List ℚ) : List ℚ :=
  if dist.sum ≠ 1 ∧ dist.sum ≠ 0 then dist.map (fun p => p / dist.sum) else dist

/-- Mask then renormalize, as executed on the worker's buffer. -/
def maskAndRenorm (getId : ℕ → ℕ) (available : List ℕ) (dist : List ℚ) : List ℚ :=
  renormalize (maskDist getId available 0 dist)

theorem length_maskDist (getId : ℕ → ℕ) (available : List ℕ) :
    ∀ (dist : List ℚ) (k : ℕ), (maskDist getId available k dist).length = dist.length := by
  intro dist
  induction dist with
  | nil => intro k; rfl
  | cons p rest ih => intro k; simp [maskDist, ih]

theorem maskDist_getD (getId : ℕ → ℕ) (available : List ℕ) :
    ∀ (dist : List ℚ) (k i : ℕ), i < dist.length →
      (maskDist getId available k dist).getD i 0
        = if getId (k + i) ∈ available then dist.getD i 0 else 0 := by
  intro dist
  induction dist with
  | nil => intro k i hi; simp at hi
  | cons p rest ih =>
    intro k i hi
    cases i with
    | zero => simp [maskDist]
    | succ j =>
      simp only [maskDist, List.getD_cons_succ]
      rw [ih (k + 1) j (by simpa using hi)]
      have hk : k + 1 + j = k + (j + 1) := by omega
      rw [hk]

theorem sum_map_div (l : List ℚ) (s : ℚ) :
    (l.map (fun p => p / s)).sum = l.sum / s := by
  induction l with
  | nil => simp
  | cons p rest ih => simp [ih, add_div]

theorem getD_map_of_lt (f : ℚ → ℚ) :
    ∀ (l : List ℚ) (i : ℕ), i < l.length → (l.map f).getD i 0 = f (l.getD i 0) := by
  intro l
  induction l with
  | nil => intro i hi; simp at hi
  | cons p rest ih =>
    intro i hi
    cases i with
    | zero => simp
    | succ j =>
      simp only [List.map_cons, List.getD_cons_succ]
      exact ih j (by simpa using hi)

/-- C3 counterexample: for the distribution [1, 0] (a valid probability
distribution) and the non-empty available set making only index 1 available,
the entire probability mass is masked away; renormalization is skipped and the
surviving entries sum to 0, not 1. -/
theorem C3_counterexample :
    ([(1 : ℚ), 0].sum = 1) ∧ (([1] : List ℕ) ≠ []) ∧
    maskAndRenorm (fun i => i) [1] [1, 0] = [0, 0] ∧
    (maskAndRenorm (fun i => i) [1] [1, 0]).sum ≠ 1 := by
  norm_num [maskAndRenorm, maskDist, renormalize]

/-- C3 amended: whenever the mass surviving the mask is positive, every entry
of an unavailable action is exactly 0 after masking and renormalization, and
the entries sum to exactly 1. -/
theorem C3_mask_renormalize (getId : ℕ → ℕ) (available : List ℕ) (dist : List ℚ)
    (hpos : 0 < (maskDist getId available 0 dist).sum) :
    (maskAndRenorm getId available dist).sum = 1 ∧
    ∀ i, i < dist.length → getId i ∉ available →
      (maskAndRenorm getId available dist).getD i 0 = 0 := by
  have hzero : ∀ i, i < dist.length → getId i ∉ available →
      (maskDist getId available 0 dist).getD i 0 = 0 := by
    intro i hi hni
    rw [maskDist_getD getId available dist 0 i hi]
    simp [hni]
  by_cases h1 : (maskDist getId available 0 dist).sum = 1
  · have heq : maskAndRenorm getId available dist = maskDist getId available 0 dist := by
      rw [maskAndRenorm, renormalize]
      simp [h1]
    refine ⟨by rw [heq, h1], ?_⟩
    intro i hi hni
    rw [heq]
    exact hzero i hi hni
  · have hs0 : (maskDist getId available 0 dist).sum ≠ 0 := ne_of_gt hpos
    have heq : maskAndRenorm getId available dist
        = (maskDist getId available 0 dist).map
            (fun p => p / (maskDist getId available 0 dist).sum) := by
      rw [maskAndRenorm, renormalize]
      simp [h1, hs0]
    refine ⟨?_, ?_⟩
    · rw [heq, sum_map_div, div_self hs0]
    · intro i hi hni
      rw [heq, getD_map_of_lt _ _ i (by rw [length_maskDist]; exact hi),
        hzero i hi hni, zero_div]

/-- Witness for C3 amended: ids are the indices, only id 0 is available,
distribution [1/2, 1/2]; the surviving mass 1/2 is positive, so the result
sums to 1 and unavailable entries are 0. -/
theorem C3_mask_renormalize_witness :
    0 < (maskDist (fun i => i) [0] 0 [(1/2 : ℚ), 1/2]).sum ∧
    ((maskAndRenorm (fun i => i) [0] [(1/2 : ℚ), 1/2]).sum = 1 ∧
      ∀ i, i < ([(1/2 : ℚ), 1/2]).length → (fun i => i) i ∉ ([0] : List ℕ) →
        (maskAndRenorm (fun i => i) [0] [(1/2 : ℚ), 1/2]).getD i 0 = 0) :=
  ⟨by norm_num [maskDist],
    C3_mask_renormalize (fun i => i) [0] [(1/2 : ℚ), 1/2] (by norm_num [maskDist])⟩

/-! ### sample_dist (PySC2_A3C_Agent.py lines 67-71)

`sample = np.random.choice(dist[0], p=dist[0])` draws a VALUE of the array
using the array itself as probability weights; `np.random.choice` validates
that the weights sum to 1 and raises ValueError otherwise (modelled as `none`).
`sample = np.argmax(dist == sample)` then returns the index of the first
maximal entry of the boolean array `dist == sample`, i.e. the FIRST index
holding the drawn value (or 0 when the value does not occur). The random draw
is abstracted by the index `j` the choice lands on: `j` is drawn with
probability `dist[j]`. -/

/-- np.argmax over the boolean array `dist == x`: first index whose entry
equals `x`, and 0 when no entry does. -/
def firstIndexOfValueAux (x : ℚ) : ℕ → List ℚ → Option ℕ
  | _, [] => none
  | k, p :: rest => if p = x then some k else firstIndexOfValueAux x (k + 1) rest

/-- Index of the first occurrence of value `x` in `dist` (np.argmax on the
boolean mask, which returns 0 for an all-false mask). -/
def firstIndexOfValue (dist : List ℚ) (x : ℚ) : ℕ :=
  (firstIndexOfValueAux x 0 dist).getD 0

/-- `sample_dist`, with the categorical draw abstracted by the landing index
`j`; returns `none` when np.random.choice would raise because the weights do
not sum to 1. -/
def sample_dist (dist : List ℚ) (j : ℕ) : Option ℕ :=
  if dist.sum = 1 ∧ j < dist.length then
    some (firstIndexOfValue dist (dist.getD j 0))
  else none

/-- Total probability that `sample_dist` returns index `i`: the summed weight
of the draws `j` whose value maps back to first occurrence `i`. -/
def sampleProb (dist : List ℚ) (i : ℕ) : ℚ :=
  (((List.range dist.length).filter
      (fun j => decide (sample_dist dist j = some i))).map
    (fun j => dist.getD j 0)).sum

/-- C8: on the distribution [1/4, 1/2, 1/4] the code returns index 0 with
probability 1/2 (the weight of BOTH entries holding value 1/4) and index 2
with probability 0 — a draw landing on index 2 is reported as index 0 — while
a categorical draw over indices would return each index i with probability
dist[i]. -/
theorem C8_code_evaluation :
    ([(1/4 : ℚ), 1/2, 1/4].sum = 1) ∧
    sampleProb [1/4, 1/2, 1/4] 0 = 1/2 ∧
    sampleProb [1/4, 1/2, 1/4] 2 = 0 ∧
    sample_dist [1/4, 1/2, 1/4] 2 = some 0 ∧
    ([(1/4 : ℚ), 1/2, 1/4].getD 0 0 = 1/4) ∧ ((1/2 : ℚ) ≠ 1/4) ∧ ((0 : ℚ) ≠ 1/4) := by
  norm_num [sampleProb, sample_dist, firstIndexOfValue, firstIndexOfValueAux,
    List.range_succ, List.filter]

/-- C6 counterexample: distribution [1/2, 1/2] with an empty available list is
fully masked (mass 0); renormalization is skipped, but what gets sampled is the
zeroed buffer itself — np.random.choice rejects it since its weights sum to 0
(modelled as none) — whereas sampling the original distribution (the claimed
fallback) would succeed. -/
theorem C6_counterexample :
    maskAndRenorm (fun i => i) [] [(1/2 : ℚ), 1/2] = [0, 0] ∧
    sample_dist (maskAndRenorm (fun i => i) [] [(1/2 : ℚ), 1/2]) 0 = none ∧
    sample_dist (maskAndRenorm (fun i => i) [] [(1/2 : ℚ), 1/2]) 1 = none ∧
    sample_dist [(1/2 : ℚ), 1/2] 0 = some 0 := by
  norm_num [maskAndRenorm, maskDist, renormalize, sample_dist, firstIndexOfValue,
    firstIndexOfValueAux]

/-- C6 amended: when the mask zeroes the entire distribution, renormalization
is skipped, and the subsequent sampling runs over the zeroed buffer (the
original distribution was overwritten in place) and fails for every draw:
np.random.choice raises because the weights sum to 0, not 1; there is no
fallback to the unmasked distribution and no flagging. -/
theorem C6_degenerate_mask (getId : ℕ → ℕ) (available : List ℕ) (dist : List ℚ)
    (h : (maskDist getId available 0 dist).sum = 0) :
    maskAndRenorm getId available dist = maskDist getId available 0 dist ∧
    ∀ j, sample_dist (maskAndRenorm getId available dist) j = none := by
  have hskip : maskAndRenorm getId available dist = maskDist getId available 0 dist := by
    rw [maskAndRenorm, renormalize]
    simp [h]
  refine ⟨hskip, ?_⟩
  intro j
  rw [sample_dist, if_neg]
  intro hc
  rw [hskip, h] at hc
  exact absurd hc.1 (by norm_num)

/-- Witness for C6 amended at the concrete fully-masked input. -/
theorem C6_degenerate_mask_witness :
    (maskDist (fun i => i) [] 0 [(1/2 : ℚ), 1/2]).sum = 0 ∧
    (maskAndRenorm (fun i => i) [] [(1/2 : ℚ), 1/2]
        = maskDist (fun i => i) [] 0 [(1/2 : ℚ), 1/2] ∧
      ∀ j, sample_dist (maskAndRenorm (fun i => i) [] [(1/2 : ℚ), 1/2]) j = none) :=
  ⟨by norm_num [maskDist],
    C6_degenerate_mask (fun i => i) [] [(1/2 : ℚ), 1/2] (by norm_num [maskDist])⟩

/-! ### Sentinel overwrite for unused arguments (Worker.work lines 477-482)

The per-step training record `arg_sample` maps each argument-type NAME (a
string) to its per-dimension sampled indices. The overwrite loop runs
`if arg_name not in chosen_action.args: ... = -1`, where `chosen_action.args`
is a list of pysc2 `actions.ArgumentType` namedtuples, not of names. -/

/-- pysc2 `actions.ArgumentType`: a namedtuple with (among others) a name and
per-dimension sizes. -/
structure ArgType where
  name : String
  sizes : List ℕ
deriving DecidableEq

/-- Python `==` between a `str` and an `ArgumentType` namedtuple compares
values of unrelated types and is always False (no cross-type equality is
defined for namedtuples and strings). -/
def pyStrEqArgType (_ : String) (_ : ArgType) : Bool := false

/-- Python `arg_name in chosen_action.args` for a string `arg_name` and the
list of ArgumentType values: membership via `==`, hence always False. -/
def pyStrInArgList (s : String) (args : List ArgType) : Bool :=
  args.any (fun a => pyStrEqArgType s a)

/-- Lines 479-482: every argument type whose name is "not in"
`chosen_action.args` has all its per-dimension samples overwritten with the
sentinel -1. -/
def sentinelOverwrite (chosenArgs : List ArgType)
    (argSample : List (String × List ℤ)) : List (String × List ℤ) :=
  argSample.map (fun entry =>
    if pyStrInArgList entry.1 chosenArgs then entry
    else (entry.1, entry.2.map (fun _ => (-1 : ℤ))))

/-- C4: the chosen action declares the argument type "screen" (k = 1 of m = 2
sampled argument types), yet after the overwrite BOTH entries hold only the
sentinel -1 — the genuine samples 5 and 7 of the declared "screen" argument are
destroyed too, because the membership test compares a string against
ArgumentType values and never succeeds. The claim demands exactly m - k = 1
sentinel entry and k = 1 genuine entry; the code yields 2 sentinel entries. -/
theorem C4_code_evaluation :
    sentinelOverwrite [⟨"screen", [0, 0]⟩]
        [("screen", [5, 7]), ("queued", [0])]
      = [("screen", [-1, -1]), ("queued", [-1])] ∧
    ((sentinelOverwrite [⟨"screen", [0, 0]⟩]
        [("screen", [5, 7]), ("queued", [0])]).filter
      (fun entry => entry.2.all (fun z => decide (z = -1)))).length = 2 ∧
    (2 : ℕ) ≠ 2 - 1 := by
  refine ⟨rfl, rfl, by norm_num⟩

/-! ### Mid-episode training trigger (Worker.work lines 506-513)

`if len(episode_buffer) == self.local_AC.model.max_episodes_kept and not
episode_end and episode_step_count != max_episode_length - 1:` train, then
`episode_buffer = episode_buffer[len(episode_buffer)//2:]`. -/

/-- The guard and the buffer truncation; returns (whether training fired, the
buffer afterwards). -/
def trainIfDue (maxEpisodesKept maxEpisodeLength : ℕ) (episodeEnd : Bool)
    (episodeStepCount : ℕ) (buffer : List ℕ) : Bool × List ℕ :=
  if buffer.length = maxEpisodesKept ∧ episodeEnd = false ∧
      episodeStepCount ≠ maxEpisodeLength - 1 then
    (true, buffer.drop (buffer.length / 2))
  else (false, buffer)

/-- C5: a mid-episode training step fires exactly when the buffer holds the
configured cutoff C of steps, the episode has not ended, and the step count is
not the maximum episode length minus 1; the buffer is then truncated to its
most recent C - C/2 steps, a suffix of the original buffer (so in original
order, not cleared). -/
theorem C5_mid_episode_train (C L : ℕ) (e : Bool) (s : ℕ) (buf : List ℕ) :
    ((trainIfDue C L e s buf).1 = true ↔
      buf.length = C ∧ e = false ∧ s ≠ L - 1) ∧
    ((trainIfDue C L e s buf).1 = true →
      (trainIfDue C L e s buf).2 = buf.drop (C / 2) ∧
      (trainIfDue C L e s buf).2.length = C - C / 2 ∧
      List.IsSuffix ((trainIfDue C L e s buf).2) buf) := by
  unfold trainIfDue
  by_cases h : buf.length = C ∧ e = false ∧ s ≠ L - 1
  · rw [if_pos h]
    refine ⟨⟨fun _ => h, fun _ => rfl⟩, fun _ => ⟨by rw [h.1], ?_, ?_⟩⟩
    · rw [List.length_drop, h.1]
    · exact List.drop_suffix _ _
  · rw [if_neg h]
    refine ⟨⟨fun hf => absurd hf (by simp), fun hc => absurd hc h⟩, fun hf => ?_⟩
    exact absurd hf (by simp)

/-- Witness for C5 at cutoff C = 30, maximum length 300, a 30-step buffer
mid-episode at step 40: training fires and 15 steps remain. -/
theorem C5_mid_episode_train_witness :
    (trainIfDue 30 300 false 40 (List.range 30)).1 = true ∧
    (trainIfDue 30 300 false 40 (List.range 30)).2.length = 15 := by
  have h := C5_mid_episode_train 30 300 false 40 (List.range 30)
  have hfire : (trainIfDue 30 300 false 40 (List.range 30)).1 = true :=
    h.1.mpr ⟨by simp, rfl, by norm_num⟩
  refine ⟨hfire, ?_⟩
  have h2 := (h.2 hfire).2.1
  norm_num at h2
  exact h2

/-! ### Enemy-unit memory (AgentModel.process_observation lines 124-132 and
AgentModel.reset lines 117-122) -/

/-- The screen scan (lines 126-130): for every cell whose player_relative
channel equals _ENEMY = 4 and whose unit type is below the catalogue bound,
increment that unit type's counter. Cells are the flattened
(player_relative, unit_type) pairs of the screen. -/
def countEnemyUnits (unitTypes : ℕ) (cells : List (ℕ × ℕ)) : List ℚ :=
  cells.foldl
    (fun acc c =>
      if c.1 = 4 ∧ c.2 < unitTypes then acc.set c.2 (acc.getD c.2 0 + 1) else acc)
    (List.replicate unitTypes 0)

/-- The update loop (lines 131-132): `for i in range(1, UNIT_TYPES):
max_units_seen[i] = max(max_units_seen[i]*3/4, enemy_unit_types[i])`; index 0
is left untouched. `k` is the index of the head of the remaining list. -/
def updateFrom (e : List ℚ) : ℕ → List ℚ → List ℚ
  | _, [] => []
  | k, x :: rest =>
    (if 1 ≤ k then max (x * 3 / 4) (e.getD k 0) else x) :: updateFrom e (k + 1) rest

/-- One step of the max_units_seen update performed by process_observation. -/
def updateMaxUnitsSeen (m e : List ℚ) : List ℚ := updateFrom e 0 m

/-- AgentModel.reset (line 121): `max_units_seen = np.zeros(UNIT_TYPES)`. -/
def resetMaxUnitsSeen (unitTypes : ℕ) : List ℚ := List.replicate unitTypes 0

theorem updateFrom_getD (e : List ℚ) :
    ∀ (m : List ℚ) (k i : ℕ), i < m.length →
      (updateFrom e k m).getD i 0
        = if 1 ≤ k + i then max (m.getD i 0 * 3 / 4) (e.getD (k + i) 0)
          else m.getD i 0 := by
  intro m
  induction m with
  | nil => intro k i hi; simp at hi
  | cons x rest ih =>
    intro k i hi
    cases i with
    | zero => simp [updateFrom]
    | succ j =>
      simp only [updateFrom, List.getD_cons_succ]
      rw [ih (k + 1) j (by simpa using hi)]
      have hk : k + 1 + j = k + (j + 1) := by omega
      rw [hk]

/-- C7: indices i ≥ 1 are updated to max(old * 3/4, observed); when the unit
type is not observed (count 0), the entry strictly decreases whenever it is
positive, and once it is zero it stays zero. Iterating over an unobserved
stretch, the entry thus strictly decreases on every step on which it is still
positive and is absorbed at zero. -/
theorem C7_decay (m e : List ℚ) (i : ℕ) (h1 : 1 ≤ i) (h2 : i < m.length)
    (hnotseen : e.getD i 0 = 0) :
    ((updateMaxUnitsSeen m e).getD i 0 = max (m.getD i 0 * 3 / 4) (e.getD i 0)) ∧
    (0 < m.getD i 0 → (updateMaxUnitsSeen m e).getD i 0 < m.getD i 0) ∧
    (m.getD i 0 = 0 → (updateMaxUnitsSeen m e).getD i 0 = 0) := by
  have hupd : (updateMaxUnitsSeen m e).getD i 0
      = max (m.getD i 0 * 3 / 4) (e.getD i 0) := by
    rw [updateMaxUnitsSeen, updateFrom_getD e m 0 i h2]
    simp [h1]
  refine ⟨hupd, ?_, ?_⟩
  · intro hpos
    rw [hupd, hnotseen, max_eq_left (by positivity)]
    linarith
  · intro hz
    rw [hupd, hnotseen, hz]
    norm_num

/-- Witness for C7 at m = [0, 4], e = [0, 0], i = 1: the updated entry is
max(4 * 3/4, 0) = 3 < 4. -/
theorem C7_decay_witness :
    ((1 : ℕ) ≤ 1 ∧ 1 < ([(0 : ℚ), 4]).length ∧ ([(0 : ℚ), 0]).getD 1 0 = 0) ∧
    ((updateMaxUnitsSeen [0, 4] [0, 0]).getD 1 0
        = max (([(0 : ℚ), 4]).getD 1 0 * 3 / 4) (([(0 : ℚ), 0]).getD 1 0) ∧
      (0 < ([(0 : ℚ), 4]).getD 1 0 →
        (updateMaxUnitsSeen [0, 4] [0, 0]).getD 1 0 < ([(0 : ℚ), 4]).getD 1 0) ∧
      (([(0 : ℚ), 4]).getD 1 0 = 0 →
        (updateMaxUnitsSeen [0, 4] [0, 0]).getD 1 0 = 0)) :=
  ⟨⟨le_refl 1, by norm_num, by norm_num⟩,
    C7_decay [0, 4] [0, 0] 1 (le_refl 1) (by norm_num) (by norm_num)⟩

theorem updateMaxUnitsSeen_getD_zero (m e : List ℚ) :
    (updateMaxUnitsSeen m e).getD 0 0 = m.getD 0 0 := by
  cases m with
  | nil => rfl
  | cons x rest => simp [updateMaxUnitsSeen, updateFrom]

/-- C10: the update loop starts at index 1, so entry 0 of max_units_seen is
never touched after reset: whatever sequence of screens is observed, it stays
0 for the whole episode — even though the screen scan itself does count enemy
cells of unit type 0, as the concrete scan [(4, 0)] ↦ [1, 0, 0] shows. -/
theorem C10_unit_type_zero_invariant (unitTypes : ℕ) (obs : List (List (ℕ × ℕ))) :
    ((obs.foldl
        (fun m cells => updateMaxUnitsSeen m (countEnemyUnits unitTypes cells))
        (resetMaxUnitsSeen unitTypes)).getD 0 0 = 0) ∧
    countEnemyUnits 3 [(4, 0)] = [1, 0, 0] := by
  constructor
  · have hgen : ∀ (l : List (List (ℕ × ℕ))) (m : List ℚ), m.getD 0 0 = 0 →
        (l.foldl (fun m cells => updateMaxUnitsSeen m (countEnemyUnits unitTypes cells))
          m).getD 0 0 = 0 := by
      intro l
      induction l with
      | nil => intro m hm; simpa using hm
      | cons c rest ih =>
        intro m hm
        simp only [List.foldl_cons]
        exact ih _ (by rw [updateMaxUnitsSeen_getD_zero]; exact hm)
    apply hgen
    cases unitTypes with
    | zero => rfl
    | succ n => simp [resetMaxUnitsSeen, List.replicate_succ]
  · norm_num [countEnemyUnits, List.replicate]

/-! ### Nonspatial stack length vs declared size
(AgentModel.process_observation lines 144-157 and
AgentModel.calculate_nonspatial_size lines 185-199)

The feature catalogue comes from the external pysc2 library
(`features.Features(...).observation_spec()` and the keys of
`observation.observation`); it is abstracted as a list of entries carrying a
feature's label, its observation_spec shape, and the flattened length of the
actually observed value. In the pysc2 catalogue the variable-length features
have spec shapes cargo (0, 7), multi_select (0, 7), build_queue (0, 7),
single_select (0, 7) — documented as (n, 7) for n in 0..1, so a flattened
single_select observation holds 0 or 7 values — and available_actions (0,). -/

/-- One nonspatial feature: its label, its observation_spec shape and the
flattened length of the observed value. -/
structure FeatureSpec where
  label : String
  shape : List ℕ
  actualLen : ℕ

/-- spatial_features list of process_observation (line 144). -/
def spatialFeatures : List String := ["minimap", "screen"]

/-- The LOCAL variable_features list of process_observation (line 145) — it
does NOT contain "single_select". -/
def variableFeaturesLocal : List String := ["cargo", "multi_select", "build_queue"]

/-- max_no dict of process_observation (line 148). -/
def maxNo : String → ℕ
  | "cargo" => 500
  | "multi_select" => 500
  | "build_queue" => 10
  | _ => 0

/-- self.variable_features dict set in AgentModel.__init__ (line 94) — it DOES
contain "single_select" with capacity 1. -/
def variableFeaturesInit : List (String × ℕ) :=
  [("cargo", 500), ("multi_select", 500), ("build_queue", 10), ("single_select", 1)]

/-- _SELECT_SIZE (line 34). -/
def selectSize : ℕ := 7

/-- Number of entries one feature contributes to the stack built by the loop of
process_observation (lines 150-155): the raw flattened length for an ordinary
feature, the zero-padded length max_no * _SELECT_SIZE for the three local
variable features (np.zeros(max_no * 7 - len) raises for len > max_no * 7;
ℕ subtraction models the in-range case), nothing for the spatial features and
available_actions. -/
def encFeatLen (f : FeatureSpec) : ℕ :=
  if f.label ∉ spatialFeatures ++ variableFeaturesLocal ++ ["available_actions"] then
    f.actualLen
  else if f.label ∈ variableFeaturesLocal then
    f.actualLen + (maxNo f.label * selectSize - f.actualLen)
  else 0

/-- Length of the nonspatial stack of process_observation: the prefix of line
149 (max_units_seen ++ used general actions ++ used race actions ++
availability mask ++ [last_action_used]) plus the feature-loop contributions. -/
def nonspatialStackLen (unitTypes nGeneral nRace : ℕ) (feats : List FeatureSpec) : ℕ :=
  unitTypes + nGeneral + nRace + (nGeneral + nRace) + 1 + (feats.map encFeatLen).sum

/-- Contribution of one observation_spec entry to calculate_nonspatial_size
(lines 190-198): the minimap and screen entries are deleted; an entry found in
self.variable_features contributes capacity * shape[1]; any other entry
contributes prod(shape). -/
def calcFeatSize (f : FeatureSpec) : ℕ :=
  if f.label ∈ spatialFeatures then 0
  else
    match variableFeaturesInit.find? (fun kv => kv.1 == f.label) with
    | some kv => kv.2 * f.shape.getD 1 0
    | none => f.shape.prod

/-- calculate_nonspatial_size (lines 185-199): action_count * 2 for the usage
counters and the availability mask, the unit-type histogram, +1 for the last
action used, plus the per-entry contributions. -/
def calculate_nonspatial_size (unitTypes nGeneral nRace : ℕ)
    (feats : List FeatureSpec) : ℕ :=
  (nGeneral + nRace) * 2 + unitTypes + 1 + (feats.map calcFeatSize).sum

/-- A fragment of the pysc2 catalogue sufficient to exhibit the mismatch: the
"player" vector (shape (11,), 11 observed values) and "single_select" (spec
shape (0, 7)) observed EMPTY — nothing is selected, 0 flattened values. -/
def demoFeats : List FeatureSpec :=
  [⟨"player", [11], 11⟩, ⟨"single_select", [0, 7], 0⟩]

/-- C9: with an empty selection, process_observation contributes
single_select's raw unpadded length 0 to the stack (it is missing from the
local variable_features list), while calculate_nonspatial_size charges
1 * 7 = 7 for it through self.variable_features: the stack has 18 entries
against a declared width of 25. With exactly one selected unit (7 flattened
values) the two sides agree at 25, confirming the 7-entry gap is
single_select's. -/
theorem C9_code_evaluation :
    nonspatialStackLen 2 1 1 demoFeats = 18 ∧
    calculate_nonspatial_size 2 1 1 demoFeats = 25 ∧
    nonspatialStackLen 2 1 1 demoFeats ≠ calculate_nonspatial_size 2 1 1 demoFeats ∧
    nonspatialStackLen 2 1 1 [⟨"player", [11], 11⟩, ⟨"single_select", [0, 7], 7⟩]
      = calculate_nonspatial_size 2 1 1 [⟨"player", [11], 11⟩, ⟨"single_select", [0, 7], 7⟩] := by
  refine ⟨by decide, by decide, by decide, by decide⟩

end PySC2A3C
